import Mathlib

/-!
Verification development for the MCP client (`src/mcp-client-typescript/index.ts`).

The core under study is the class `MCPClient`: the query-resolution
orchestration loop `processQuery`, the connection routine `connectToServer`,
and the shutdown routine `cleanup`.  The two external collaborators — the
Language Model Service (`anthropic.messages.create`) and the Tool Host
(`mcp.listTools` / `mcp.callTool`) — are modelled as oracle functions packaged
in environment records.  Each run additionally produces an explicit event
trace recording, in order, every model call (with the conversation and the
attached tool catalog) and every tool call, so that ordering and invariant
properties of the loop can be stated.
-/

/-- JSON values, as handled by `JSON.stringify` in the source.  Object key
order is preserved (the source guarantees no reordering of keys). -/
inductive Json where
  | null
  | bool (b : Bool)
  | num (n : Int)
  | str (s : String)
  | arr (elems : List Json)
  | obj (fields : List (String × Json))

/-- Escaping of a single character inside a JSON string literal, as
performed by `JSON.stringify`. -/
def jsonEscapeChar (c : Char) : String :=
  if c = '"' then "\\\"" else if c = '\\' then "\\\\"
  else if c = '\n' then "\\n" else if c = '\t' then "\\t" else if c = '\r' then "\\r"
  else String.singleton c

def jsonEscape (s : String) : String := String.join (s.toList.map jsonEscapeChar)

mutual
/-- Models `JSON.stringify` (compact form, no spaces), as used by the
source for the tool-call trace line. -/
def Json.stringify : Json → String
  | .null => "null"
  | .bool b => cond b "true" "false"
  | .num n => toString n
  | .str s => "\"" ++ jsonEscape s ++ "\""
  | .arr xs => "[" ++ Json.stringifyElems xs ++ "]"
  | .obj fs => "\x7b" ++ Json.stringifyFields fs ++ "\x7d"

def Json.stringifyElems : List Json → String
  | [] => ""
  | [j] => j.stringify
  | j :: rest => j.stringify ++ "," ++ Json.stringifyElems rest

def Json.stringifyFields : List (String × Json) → String
  | [] => ""
  | [(k, v)] => "\"" ++ jsonEscape k ++ "\":" ++ v.stringify
  | (k, v) :: rest =>
      "\"" ++ jsonEscape k ++ "\":" ++ v.stringify ++ "," ++ Json.stringifyFields rest
end

/-- Models JavaScript `String.prototype.endsWith` (suffix test), used by
`connectToServer` to classify the entry-point path. -/
def strEndsWith (s suffix : String) : Bool :=
  suffix.toList.isSuffixOf s.toList

/-- A tool descriptor in the shape the Language Model Service expects
(the `Tool[]` field `this.tools` of `MCPClient`). -/
structure Tool where
  name : String
  description : String
  input_schema : Json

/-- A conversation turn (`MessageParam`): the source only ever pushes
turns whose content is a plain string. -/
structure Message where
  role : String
  content : String

/-- A content block of a model response: either plain text or a tool-use
request (`content.type === "text" | "tool_use"` in the source). -/
inductive ContentBlock where
  | text (text : String)
  | toolUse (name : String) (input : Json)

/-- A model response: an ordered sequence of content blocks. -/
structure ModelResponse where
  content : List ContentBlock

/-- The result of a Tool Host `callTool` invocation; the source casts its
`content` to a string before re-injecting it into the conversation. -/
structure ToolResult where
  content : String

/-- Errors surfaced by the client.  `typeError` is the JavaScript
`TypeError` raised by reading `.type` off `undefined` when a follow-up
response has an empty content array. -/
inductive Err where
  | invalidScriptType
  | connectionError
  | modelServiceError
  | toolHostError
  | typeError
deriving DecidableEq

/-- The external collaborators of `processQuery`: the Language Model
Service (`createMessage`, taking the conversation and the optional tool
catalog) and the Tool Host (`callTool`).  Either may fail. -/
structure Env where
  createMessage : List Message → Option (List Tool) → Except Err ModelResponse
  callTool : String → Json → Except Err ToolResult

/-- Observable events of a `processQuery` run, in chronological order:
each model call records the exact conversation sent and the tool catalog
attached (`none` for follow-up calls), each tool call records the name and
arguments dispatched to the Tool Host. -/
inductive Event where
  | modelCall (messages : List Message) (tools : Option (List Tool))
  | toolCall (name : String) (args : Json)

/-- The mutable state of an `MCPClient` instance: the cached tool catalog
(`this.tools`), whether a transport has been created and connected
(`this.transport !== null`), and whether the Tool Host channel has been
closed. -/
structure MCPClient where
  tools : List Tool := []
  transportConnected : Bool := false
  closed : Bool := false

/-- Models JavaScript `Array.prototype.join("\n")`. -/
def joinNL : List String → String
  | [] => ""
  | [s] => s
  | s :: rest => s ++ "\n" ++ joinNL rest

/-- The human-readable trace line the source pushes for each tool call:
`[Calling tool ${toolName} with args ${JSON.stringify(toolArgs)}]`. -/
def traceLine (toolName : String) (toolArgs : Json) : String :=
  "[Calling tool " ++ toolName ++ " with args " ++ toolArgs.stringify ++ "]"

/-- Models `response.content[0].type === "text" ? response.content[0].text : ""`:
the string the source appends for the first block of a follow-up
response. -/
def firstBlockText : ContentBlock → String
  | .text t => t
  | .toolUse _ _ => ""

/-- The body of the `for (const content of response.content)` loop of
`processQuery` (index.ts lines 108-142), threading the conversation and
the accumulated `finalText`, and emitting the event trace.  The source's
`toolResults` array is write-only (pushed to, never read), so it is not
threaded here.  A follow-up response with an empty content array makes the
source read `.type` off `undefined`, raising a `TypeError`. -/
def processContent (env : Env) :
    List ContentBlock → List Message → List String →
    Except Err (List String × List Message) × List Event
  | [], messages, finalText => (.ok (finalText, messages), [])
  | .text t :: rest, messages, finalText =>
      processContent env rest messages (finalText ++ [t])
  | .toolUse toolName toolArgs :: rest, messages, finalText =>
      match env.callTool toolName toolArgs with
      | .error e => (.error e, [.toolCall toolName toolArgs])
      | .ok result =>
          let finalText' := finalText ++ [traceLine toolName toolArgs]
          let messages' := messages ++ [{ role := "user", content := result.content }]
          match env.createMessage messages' none with
          | .error e =>
              (.error e, [.toolCall toolName toolArgs, .modelCall messages' none])
          | .ok response =>
              match response.content with
              | [] =>
                  (.error .typeError,
                   [.toolCall toolName toolArgs, .modelCall messages' none])
              | first :: _ =>
                  let step := processContent env rest messages' (finalText' ++ [firstBlockText first])
                  (step.1, .toolCall toolName toolArgs :: .modelCall messages' none :: step.2)

/-- Models `MCPClient.processQuery` (index.ts lines 82-145): start the
conversation with the user query, make the initial model call with the
cached tool catalog attached, run the dispatch loop over the response
blocks, and join the accumulated text with newlines.  Returns the result
(or the propagated error), the event trace, and the client state after the
call (the source never assigns any instance field inside `processQuery`). -/
def processQuery (client : MCPClient) (env : Env) (query : String) :
    Except Err String × List Event × MCPClient :=
  let messages : List Message := [{ role := "user", content := query }]
  match env.createMessage messages (some client.tools) with
  | .error e => (.error e, [.modelCall messages (some client.tools)], client)
  | .ok response =>
      match processContent env response.content messages [] with
      | (.error e, evs) =>
          (.error e, .modelCall messages (some client.tools) :: evs, client)
      | (.ok (finalText, _), evs) =>
          (.ok (joinNL finalText), .modelCall messages (some client.tools) :: evs, client)

/-- A tool descriptor as returned by the Tool Host's `listTools`. -/
structure ToolListEntry where
  name : String
  description : String
  inputSchema : Json

/-- The external collaborator of `connectToServer`: the Tool Host listing
call (the transport spawn itself is modelled by the emitted event). -/
structure ServerEnv where
  listTools : Except Err (List ToolListEntry)

/-- Observable events of `connectToServer`: creating and connecting the
stdio transport, and issuing the `listTools` call. -/
inductive ConnEvent where
  | transportCreated (path : String)
  | listToolsCalled

/-- Models `MCPClient.connectToServer` (index.ts lines 37-80): classify the
entry-point path by extension (`.js` / `.py`); if neither, throw before
any transport is created; otherwise create and connect the transport,
list the tools, and cache the normalized catalog in `this.tools`.  The
`catch` block only logs and rethrows, so errors propagate unchanged. -/
def connectToServer (client : MCPClient) (env : ServerEnv) (serverScriptPath : String) :
    Except Err Unit × List ConnEvent × MCPClient :=
  let isJs := strEndsWith serverScriptPath ".js"
  let isPy := strEndsWith serverScriptPath ".py"
  if !isJs && !isPy then
    (.error .invalidScriptType, [], client)
  else
    match env.listTools with
    | .error e =>
        (.error e, [.transportCreated serverScriptPath, .listToolsCalled],
         { client with transportConnected := true })
    | .ok toolsResult =>
        (.ok (), [.transportCreated serverScriptPath, .listToolsCalled],
         { client with
           transportConnected := true
           tools := toolsResult.map fun t =>
             { name := t.name
               description := t.description
               input_schema := t.inputSchema } })

/-- Modelled from the spec: the Tool Host channel close operation
(`this.mcp.close()` delegates to the protocol SDK's `Client.close`, which
is not part of this repository).  Per the spec, shutdown closes the
channel, "idempotently tolerated if already closed": closing an
already-closed channel succeeds and leaves the state unchanged. -/
def channelClose (c : MCPClient) : Except Err MCPClient :=
  .ok { c with closed := true }

/-- Models `MCPClient.cleanup` (index.ts lines 147-152): `await this.mcp.close()`. -/
def cleanup (c : MCPClient) : Except Err MCPClient :=
  channelClose c

/-- The `(name, args)` pairs of the `ToolUse` blocks of a response, in
order of appearance. -/
def toolUses : List ContentBlock → List (String × Json)
  | [] => []
  | .text _ :: rest => toolUses rest
  | .toolUse n a :: rest => (n, a) :: toolUses rest

/-- The strings of the `Text` blocks of a response, in order. -/
def textsOf : List ContentBlock → List String
  | [] => []
  | .text t :: rest => t :: textsOf rest
  | .toolUse _ _ :: rest => textsOf rest

def ContentBlock.isToolUse : ContentBlock → Bool
  | .toolUse _ _ => true
  | .text _ => false

/-- Project a trace event to the tool call it records, if any. -/
def Event.toolCallOf : Event → Option (String × Json)
  | .toolCall n a => some (n, a)
  | .modelCall _ _ => none

/-- The kind of a trace event, forgetting its payload. -/
inductive EvKind where
  | model
  | tool
deriving DecidableEq

def Event.kind : Event → EvKind
  | .modelCall _ _ => .model
  | .toolCall _ _ => .tool

/-- Builds `n` repetitions of the pair (tool call, model call): the expected
event-kind pattern after the initial model call when `n` tool-use blocks
are dispatched. -/
def tmPairs : Nat → List EvKind
  | 0 => []
  | n + 1 => .tool :: .model :: tmPairs n

/-- Does the conversation end with a `"user"`-role turn? -/
def lastRoleIsUser (msgs : List Message) : Bool :=
  match msgs.getLast? with
  | some m => m.role == "user"
  | none => false

/-- Trace well-formedness checker, where `k` counts the tool calls seen so
far: every model call is made on a conversation that ends with a
`"user"`-role turn and has exactly `1 + k` turns — the initial user turn
plus exactly one appended result turn per preceding tool call. -/
def checkTrace : Nat → List Event → Bool
  | _, [] => true
  | k, .modelCall msgs _ :: rest =>
      (msgs.length == k + 1) && lastRoleIsUser msgs && checkTrace k rest
  | k, .toolCall _ _ :: rest => checkTrace (k + 1) rest

/-! ## Helper lemmas -/

theorem processContent_texts_append (env : Env) (ts : List String) (bs : List ContentBlock) :
    ∀ msgs ft, processContent env (ts.map ContentBlock.text ++ bs) msgs ft =
      processContent env bs msgs (ft ++ ts) := by
  induction ts with
  | nil => intro msgs ft; simp
  | cons t ts ih =>
      intro msgs ft
      rw [List.map_cons, List.cons_append]
      show processContent env (List.map ContentBlock.text ts ++ bs) msgs (ft ++ [t]) = _
      rw [ih, List.append_assoc, List.singleton_append]

theorem textsOf_map_text (ts : List String) : textsOf (ts.map ContentBlock.text) = ts := by
  induction ts with
  | nil => rfl
  | cons t ts ih => simp [textsOf, ih]

theorem processContent_texts (env : Env) (ts : List String) (msgs : List Message)
    (ft : List String) :
    processContent env (ts.map ContentBlock.text) msgs ft = (.ok (ft ++ ts, msgs), []) := by
  have h := processContent_texts_append env ts [] msgs ft
  simpa [processContent] using h

theorem all_text_eq_map (bs : List ContentBlock)
    (h : ∀ b ∈ bs, b.isToolUse = false) : bs = (textsOf bs).map ContentBlock.text := by
  induction bs with
  | nil => rfl
  | cons b rest ih =>
      cases b with
      | text t =>
          simp only [textsOf, List.map_cons, List.cons.injEq, true_and]
          exact ih fun b hb => h b (List.mem_cons_of_mem _ hb)
      | toolUse n a =>
          have := h (.toolUse n a) (List.mem_cons_self _ _)
          simp [ContentBlock.isToolUse] at this

/-! ## Claims -/

/-- C1: for every query whose initial model response contains no `ToolUse`
block, `processQuery` returns exactly the `Text`-block strings joined by
newline, and the event trace is the single initial model call: no
`callTool` invocation and no follow-up model call occur. -/
theorem processQuery_no_tool_use (c : MCPClient) (env : Env) (q : String)
    (resp : ModelResponse)
    (hresp : env.createMessage [⟨"user", q⟩] (some c.tools) = .ok resp)
    (hnotool : ∀ b ∈ resp.content, b.isToolUse = false) :
    (processQuery c env q).1 = .ok (joinNL (textsOf resp.content)) ∧
    (processQuery c env q).2.1 = [.modelCall [⟨"user", q⟩] (some c.tools)] := by
  have hb := all_text_eq_map resp.content hnotool
  simp only [processQuery, hresp]
  rw [hb, processContent_texts]
  simp [textsOf_map_text]

def envW1 : Env :=
  { createMessage := fun _ tls =>
      match tls with
      | some _ => .ok ⟨[.text "4"]⟩
      | none => .ok ⟨[.text "unused"]⟩
    callTool := fun _ _ => .ok ⟨""⟩ }

/-- Witness for C1: the spec scenario — query `"what is 2+2"`, single text
block `"4"`, result exactly `"4"` with only the initial model call. -/
theorem processQuery_no_tool_use_witness :
    (processQuery {} envW1 "what is 2+2").1 = .ok (joinNL (textsOf [ContentBlock.text "4"])) ∧
    (processQuery {} envW1 "what is 2+2").2.1 =
      [.modelCall [⟨"user", "what is 2+2"⟩] (some ([] : List Tool))] :=
  processQuery_no_tool_use {} envW1 "what is 2+2" ⟨[.text "4"]⟩ rfl (by
    intro b hb
    rw [List.mem_singleton] at hb
    subst hb
    rfl)

theorem processQuery_events_eq (c : MCPClient) (env : Env) (q : String)
    (bs : List ContentBlock)
    (hresp : env.createMessage [⟨"user", q⟩] (some c.tools) = .ok ⟨bs⟩) :
    (processQuery c env q).2.1 =
      .modelCall [⟨"user", q⟩] (some c.tools) ::
        (processContent env bs [⟨"user", q⟩] []).2 := by
  simp only [processQuery, hresp]
  rcases h : processContent env bs [⟨"user", q⟩] [] with ⟨res, evs⟩
  cases res <;> simp

theorem processQuery_result_eq (c : MCPClient) (env : Env) (q : String)
    (bs : List ContentBlock)
    (hresp : env.createMessage [⟨"user", q⟩] (some c.tools) = .ok ⟨bs⟩) :
    (processQuery c env q).1 =
      (processContent env bs [⟨"user", q⟩] []).1.map fun r => joinNL r.1 := by
  simp only [processQuery, hresp]
  rcases h : processContent env bs [⟨"user", q⟩] [] with ⟨res, evs⟩
  rcases res with e | ⟨ft2, msgs2⟩ <;> simp [Except.map]

theorem processContent_trace (env : Env)
    (htool : ∀ n a, ∃ r, env.callTool n a = .ok r)
    (hmodel : ∀ msgs, ∃ r first rest2,
      env.createMessage msgs none = .ok r ∧ r.content = first :: rest2) :
    ∀ (bs : List ContentBlock) (msgs : List Message) (ft : List String),
      (processContent env bs msgs ft).2.filterMap Event.toolCallOf = toolUses bs ∧
      (processContent env bs msgs ft).2.map Event.kind = tmPairs (toolUses bs).length := by
  intro bs
  induction bs with
  | nil => intro msgs ft; simp [processContent, toolUses, tmPairs]
  | cons b rest ih =>
      intro msgs ft
      cases b with
      | text t =>
          simpa [processContent, toolUses] using ih msgs (ft ++ [t])
      | toolUse n a =>
          obtain ⟨r, hr⟩ := htool n a
          obtain ⟨fr, first, rest2, hfr, hcontent⟩ :=
            hmodel (msgs ++ [⟨"user", r.content⟩])
          have h := ih (msgs ++ [⟨"user", r.content⟩])
            (ft ++ [traceLine n a, firstBlockText first])
          simp only [processContent, hr, hfr, hcontent]
          simp [toolUses, tmPairs, Event.toolCallOf, Event.kind, h.1, h.2]

/-- C2: for every query whose initial model response contains N `ToolUse`
blocks interleaved with `Text` blocks, exactly N `callTool` invocations
occur, with the names and arguments of the blocks in order of appearance,
and the event trace after the initial model call is exactly N pairs
(tool call, follow-up model call) — each tool call is followed by its own
follow-up model call before the next one is dispatched, and `ToolUse`
blocks in follow-up responses trigger no additional `callTool`. -/
theorem processQuery_tool_call_trace (c : MCPClient) (env : Env) (q : String)
    (resp : ModelResponse)
    (hresp : env.createMessage [⟨"user", q⟩] (some c.tools) = .ok resp)
    (htool : ∀ n a, ∃ r, env.callTool n a = .ok r)
    (hmodel : ∀ msgs, ∃ r first rest2,
      env.createMessage msgs none = .ok r ∧ r.content = first :: rest2) :
    (processQuery c env q).2.1.filterMap Event.toolCallOf = toolUses resp.content ∧
    (processQuery c env q).2.1.map Event.kind =
      .model :: tmPairs (toolUses resp.content).length := by
  have h := processContent_trace env htool hmodel resp.content [⟨"user", q⟩] []
  rw [processQuery_events_eq c env q resp.content hresp]
  simp [Event.toolCallOf, Event.kind, h.1, h.2, List.filterMap_cons]

def envW2 : Env :=
  { createMessage := fun _ tls =>
      match tls with
      | some _ => .ok ⟨[.text "a", .toolUse "t1" .null, .toolUse "t2" (.num 7), .text "b"]⟩
      | none => .ok ⟨[.toolUse "nested" .null]⟩
    callTool := fun _ _ => .ok ⟨"res"⟩ }

/-- Witness for C2: two interleaved `ToolUse` blocks produce exactly two
tool calls in order, each followed by its own follow-up model call, even
though every follow-up response itself contains a `ToolUse` block (which
is not expanded). -/
theorem processQuery_tool_call_trace_witness :
    (processQuery {} envW2 "go").2.1.filterMap Event.toolCallOf =
      toolUses [ContentBlock.text "a", .toolUse "t1" .null, .toolUse "t2" (.num 7),
        .text "b"] ∧
    (processQuery {} envW2 "go").2.1.map Event.kind =
      .model :: tmPairs (toolUses [ContentBlock.text "a", .toolUse "t1" .null,
        .toolUse "t2" (.num 7), .text "b"]).length :=
  processQuery_tool_call_trace {} envW2 "go"
    ⟨[.text "a", .toolUse "t1" .null, .toolUse "t2" (.num 7), .text "b"]⟩ rfl
    (fun _ _ => ⟨⟨"res"⟩, rfl⟩)
    (fun _ => ⟨⟨[.toolUse "nested" .null]⟩, .toolUse "nested" .null, [], rfl, rfl⟩)

theorem processContent_checkTrace (env : Env) :
    ∀ (bs : List ContentBlock) (msgs : List Message) (ft : List String) (k : Nat),
      msgs.length = k + 1 → lastRoleIsUser msgs = true →
      checkTrace k (processContent env bs msgs ft).2 = true := by
  intro bs
  induction bs with
  | nil => intro msgs ft k h1 h2; simp [processContent, checkTrace]
  | cons b rest ih =>
      intro msgs ft k h1 h2
      cases b with
      | text t => simpa [processContent] using ih msgs (ft ++ [t]) k h1 h2
      | toolUse n a =>
          cases hr : env.callTool n a with
          | error e => simp [processContent, hr, checkTrace]
          | ok r =>
              have hlen : (msgs ++ [(⟨"user", r.content⟩ : Message)]).length = (k + 1) + 1 := by
                simp [h1]
              have hlast : lastRoleIsUser (msgs ++ [⟨"user", r.content⟩]) = true := by
                simp [lastRoleIsUser]
              cases hm : env.createMessage (msgs ++ [⟨"user", r.content⟩]) none with
              | error e => simp [processContent, hr, hm, checkTrace, hlen, hlast]
              | ok fr =>
                  cases hc : fr.content with
                  | nil => simp [processContent, hr, hm, hc, checkTrace, hlen, hlast]
                  | cons first rest2 =>
                      have h := ih (msgs ++ [⟨"user", r.content⟩])
                        (ft ++ [traceLine n a, firstBlockText first]) (k + 1) hlen hlast
                      simp [processContent, hr, hm, hc, checkTrace, hlen, hlast, h]

/-- C7: on every execution of `processQuery` — whatever the environment
does — every conversation sent to the Language Model Service ends with a
`"user"`-role turn, and at each model call the conversation has exactly
`1 + k` turns where `k` is the number of tool calls made so far: every
dispatched `ToolUse` block is matched by exactly one result turn appended
before the next model call on that conversation. -/
theorem processQuery_conversation_invariant (c : MCPClient) (env : Env) (q : String) :
    checkTrace 0 (processQuery c env q).2.1 = true := by
  cases hresp : env.createMessage [⟨"user", q⟩] (some c.tools) with
  | error e => simp [processQuery, hresp, checkTrace, lastRoleIsUser]
  | ok resp =>
      have h := processContent_checkTrace env resp.content [⟨"user", q⟩] [] 0
        (by simp) (by simp [lastRoleIsUser])
      rw [processQuery_events_eq c env q resp.content hresp]
      simp [checkTrace, lastRoleIsUser, h]

/-- C10: `processQuery` never modifies the client state — in particular
the cached tool catalog `tools` is identical before and after the call,
on success and on failure alike — and the initial model call of any query
attaches exactly that cached catalog. -/
theorem processQuery_preserves_tools (c : MCPClient) (env : Env) (q : String) :
    (processQuery c env q).2.2 = c ∧
    (processQuery c env q).2.2.tools = c.tools ∧
    (∃ evs, (processQuery c env q).2.1 =
      .modelCall [⟨"user", q⟩] (some c.tools) :: evs) := by
  have hc : (processQuery c env q).2.2 = c := by
    cases hresp : env.createMessage [⟨"user", q⟩] (some c.tools) with
    | error e => simp [processQuery, hresp]
    | ok resp =>
        simp only [processQuery, hresp]
        rcases h : processContent env resp.content [⟨"user", q⟩] [] with ⟨res, evs⟩
        cases res <;> simp
  refine ⟨hc, by rw [hc], ?_⟩
  cases hresp : env.createMessage [⟨"user", q⟩] (some c.tools) with
  | error e => exact ⟨[], by simp [processQuery, hresp]⟩
  | ok resp => exact ⟨_, processQuery_events_eq c env q resp.content hresp⟩

theorem processContent_toolUse_step (env : Env) (n : String) (a : Json)
    (res : ToolResult) (fresp : ModelResponse) (first : ContentBlock)
    (rest2 rest : List ContentBlock) (msgs : List Message) (ft : List String)
    (htool : env.callTool n a = .ok res)
    (hfollow : env.createMessage (msgs ++ [⟨"user", res.content⟩]) none = .ok fresp)
    (hcontent : fresp.content = first :: rest2) :
    processContent env (.toolUse n a :: rest) msgs ft =
      ((processContent env rest (msgs ++ [⟨"user", res.content⟩])
          (ft ++ [traceLine n a, firstBlockText first])).1,
       .toolCall n a :: .modelCall (msgs ++ [⟨"user", res.content⟩]) none ::
         (processContent env rest (msgs ++ [⟨"user", res.content⟩])
           (ft ++ [traceLine n a, firstBlockText first])).2) := by
  simp only [processContent, htool, hfollow, hcontent]
  simp

theorem joinNL_cons_ne (x : String) (l : List String) (h : l ≠ []) :
    joinNL (x :: l) = x ++ "\n" ++ joinNL l := by
  cases l with
  | nil => exact absurd rfl h
  | cons y ys => rfl

theorem joinNL_head (x : String) (l : List String) :
    ∃ s, joinNL (x :: l) = x ++ s := by
  cases l with
  | nil => exact ⟨"", by simp [joinNL]⟩
  | cons y ys =>
      exact ⟨"\n" ++ joinNL (y :: ys), by
        rw [joinNL_cons_ne x (y :: ys) (by simp), String.append_assoc]⟩

theorem joinNL_middle (xs : List String) (y z : String) (zs : List String) :
    ∃ p s, joinNL (xs ++ y :: z :: zs) = p ++ (y ++ "\n" ++ z) ++ s := by
  induction xs with
  | nil =>
      obtain ⟨s, hs⟩ := joinNL_head z zs
      refine ⟨"", s, ?_⟩
      rw [List.nil_append, joinNL_cons_ne y (z :: zs) (by simp), hs]
      simp [String.append_assoc]
  | cons x xs ih =>
      obtain ⟨p, s, hps⟩ := ih
      refine ⟨x ++ "\n" ++ p, s, ?_⟩
      rw [List.cons_append, joinNL_cons_ne x (xs ++ y :: z :: zs) (by simp), hps]
      simp [String.append_assoc]

/-- C3: for every query whose initial model response is text blocks `pre`,
then exactly one `ToolUse` block with name `n` and arguments `a`, then
text blocks `post`, with a successful tool call and a follow-up response
whose first block is text `t`: the returned string is the newline-join of
`pre`, the trace line `[Calling tool n with args json(a)]`, `t`, and
`post` — in particular it contains the trace line immediately followed by
the follow-up text, the two joined by a newline. -/
theorem processQuery_single_tool_trace (c : MCPClient) (env : Env) (q : String)
    (pre post : List String) (n : String) (a : Json) (res : ToolResult)
    (fresp : ModelResponse) (t : String) (rest2 : List ContentBlock)
    (hresp : env.createMessage [⟨"user", q⟩] (some c.tools) =
      .ok ⟨pre.map ContentBlock.text ++ .toolUse n a :: post.map ContentBlock.text⟩)
    (htool : env.callTool n a = .ok res)
    (hfollow : env.createMessage [⟨"user", q⟩, ⟨"user", res.content⟩] none = .ok fresp)
    (hcontent : fresp.content = .text t :: rest2) :
    (processQuery c env q).1 = .ok (joinNL (pre ++ traceLine n a :: t :: post)) ∧
    ∃ p s, joinNL (pre ++ traceLine n a :: t :: post) =
      p ++ (traceLine n a ++ "\n" ++ t) ++ s := by
  constructor
  · rw [processQuery_result_eq c env q _ hresp]
    rw [processContent_texts_append,
      processContent_toolUse_step env n a res fresp (.text t) rest2 _ _ _ htool hfollow
        hcontent,
      processContent_texts]
    simp [firstBlockText, Except.map]
  · exact joinNL_middle pre (traceLine n a) t post

def envW3 : Env :=
  { createMessage := fun _ tls =>
      match tls with
      | some _ => .ok ⟨[.toolUse "list_files" (.obj [])]⟩
      | none => .ok ⟨[.text "Found: a.txt, b.txt"]⟩
    callTool := fun _ _ => .ok ⟨"a.txt, b.txt"⟩ }

/-- Witness for C3: the spec scenario — query `"list files"`, one
`ToolUse` block `list_files` with empty arguments, tool result
`"a.txt, b.txt"`, follow-up text `"Found: a.txt, b.txt"`; the result is
the trace line joined to the follow-up text by a newline. -/
theorem processQuery_single_tool_trace_witness :
    (processQuery {} envW3 "list files").1 =
      .ok (joinNL ([] ++ traceLine "list_files" (.obj []) :: "Found: a.txt, b.txt" :: [])) ∧
    ∃ p s, joinNL ([] ++ traceLine "list_files" (.obj []) :: "Found: a.txt, b.txt" :: []) =
      p ++ (traceLine "list_files" (.obj []) ++ "\n" ++ "Found: a.txt, b.txt") ++ s :=
  processQuery_single_tool_trace {} envW3 "list files" [] [] "list_files" (.obj [])
    ⟨"a.txt, b.txt"⟩ ⟨[.text "Found: a.txt, b.txt"]⟩ "Found: a.txt, b.txt" [] rfl rfl rfl rfl

/-- C4: for every successful tool call, the follow-up model call is made
with the updated conversation (the old one plus the single appended
`"user"` result turn) and with no tool catalog attached (`none`), and
only the first content block of the follow-up response is consumed
(`rest2` does not occur in the result): its text is appended if it is a
`Text` block, the empty string otherwise (`firstBlockText`). -/
theorem processContent_follow_up_shape (env : Env) (n : String) (a : Json)
    (res : ToolResult) (fresp : ModelResponse) (first : ContentBlock)
    (rest2 rest : List ContentBlock) (msgs : List Message) (ft : List String)
    (htool : env.callTool n a = .ok res)
    (hfollow : env.createMessage (msgs ++ [⟨"user", res.content⟩]) none = .ok fresp)
    (hcontent : fresp.content = first :: rest2) :
    processContent env (.toolUse n a :: rest) msgs ft =
      ((processContent env rest (msgs ++ [⟨"user", res.content⟩])
          (ft ++ [traceLine n a, firstBlockText first])).1,
       .toolCall n a :: .modelCall (msgs ++ [⟨"user", res.content⟩]) none ::
         (processContent env rest (msgs ++ [⟨"user", res.content⟩])
           (ft ++ [traceLine n a, firstBlockText first])).2) :=
  processContent_toolUse_step env n a res fresp first rest2 rest msgs ft htool hfollow
    hcontent

/-- Witness for C4: a concrete successful tool call whose follow-up
response's first block is a `ToolUse` block — the empty string is
appended (`firstBlockText` of a non-text block), the conversation sent to
the follow-up is the updated one, and no catalog is attached. -/
theorem processContent_follow_up_shape_witness :
    processContent envW2 [.toolUse "t1" .null] [⟨"user", "go"⟩] [] =
      ((processContent envW2 [] ([⟨"user", "go"⟩] ++ [⟨"user", "res"⟩])
          ([] ++ [traceLine "t1" .null, firstBlockText (.toolUse "nested" .null)])).1,
       .toolCall "t1" .null ::
         .modelCall ([⟨"user", "go"⟩] ++ [⟨"user", "res"⟩]) none ::
         (processContent envW2 [] ([⟨"user", "go"⟩] ++ [⟨"user", "res"⟩])
           ([] ++ [traceLine "t1" .null, firstBlockText (.toolUse "nested" .null)])).2) :=
  processContent_follow_up_shape envW2 "t1" .null ⟨"res"⟩ ⟨[.toolUse "nested" .null]⟩
    (.toolUse "nested" .null) [] [] [⟨"user", "go"⟩] [] rfl rfl rfl

theorem processContent_append_ok (env : Env) (bs1 bs2 : List ContentBlock) :
    ∀ (msgs : List Message) (ft ft' : List String) (msgs' : List Message)
      (evs1 : List Event),
      processContent env bs1 msgs ft = (.ok (ft', msgs'), evs1) →
      processContent env (bs1 ++ bs2) msgs ft =
        ((processContent env bs2 msgs' ft').1,
         evs1 ++ (processContent env bs2 msgs' ft').2) := by
  induction bs1 with
  | nil =>
      intro msgs ft ft' msgs' evs1 h
      simp only [processContent, Prod.mk.injEq, Except.ok.injEq] at h
      obtain ⟨⟨hft, hmsgs⟩, hevs⟩ := h
      subst hft; subst hmsgs; subst hevs
      simp
  | cons b rest ih =>
      intro msgs ft ft' msgs' evs1 h
      cases b with
      | text t =>
          simp only [processContent] at h
          simpa only [List.cons_append, processContent] using ih msgs (ft ++ [t]) ft' msgs' evs1 h
      | toolUse n a =>
          cases hr : env.callTool n a with
          | error e => simp [processContent, hr] at h
          | ok r =>
              cases hm : env.createMessage (msgs ++ [⟨"user", r.content⟩]) none with
              | error e => simp [processContent, hr, hm] at h
              | ok fr =>
                  cases hc : fr.content with
                  | nil => simp [processContent, hr, hm, hc] at h
                  | cons first rest2 =>
                      simp only [processContent, hr, hm, hc, List.append_assoc,
                        List.singleton_append] at h
                      rcases hstep : processContent env rest (msgs ++ [⟨"user", r.content⟩])
                        (ft ++ [traceLine n a, firstBlockText first]) with ⟨res1, evs2⟩
                      rw [hstep] at h
                      have h1 : res1 = .ok (ft', msgs') := congrArg Prod.fst h
                      have h2 : Event.toolCall n a ::
                          Event.modelCall (msgs ++ [⟨"user", r.content⟩]) none :: evs2 = evs1 :=
                        congrArg Prod.snd h
                      subst h2
                      rw [h1] at hstep
                      have hres := ih (msgs ++ [⟨"user", r.content⟩])
                        (ft ++ [traceLine n a, firstBlockText first]) ft' msgs' evs2 hstep
                      simp [processContent, hr, hm, hc, hres]

/-- C5: every failure of an external call surfaces to the caller as the
rejection of `processQuery` with that very error, and no partial answer
text is returned (the result is `Except.error`, carrying no string) —
whether the initial model call fails, any `callTool` invocation fails
(even after text and earlier successful tool calls were already
accumulated: `bs1` is an arbitrary successfully processed prefix), or any
follow-up model call fails. -/
theorem processQuery_error_propagation (c : MCPClient) (env : Env) (q : String)
    (e : Err) :
    (env.createMessage [⟨"user", q⟩] (some c.tools) = .error e →
      (processQuery c env q).1 = .error e) ∧
    (∀ (bs1 : List ContentBlock) (n : String) (a : Json) (rest : List ContentBlock)
        (ft' : List String) (msgs' : List Message) (evs1 : List Event),
      env.createMessage [⟨"user", q⟩] (some c.tools) =
        .ok ⟨bs1 ++ .toolUse n a :: rest⟩ →
      processContent env bs1 [⟨"user", q⟩] [] = (.ok (ft', msgs'), evs1) →
      env.callTool n a = .error e →
      (processQuery c env q).1 = .error e) ∧
    (∀ (bs1 : List ContentBlock) (n : String) (a : Json) (rest : List ContentBlock)
        (ft' : List String) (msgs' : List Message) (evs1 : List Event)
        (res : ToolResult),
      env.createMessage [⟨"user", q⟩] (some c.tools) =
        .ok ⟨bs1 ++ .toolUse n a :: rest⟩ →
      processContent env bs1 [⟨"user", q⟩] [] = (.ok (ft', msgs'), evs1) →
      env.callTool n a = .ok res →
      env.createMessage (msgs' ++ [⟨"user", res.content⟩]) none = .error e →
      (processQuery c env q).1 = .error e) := by
  refine ⟨?_, ?_, ?_⟩
  · intro h
    simp [processQuery, h]
  · intro bs1 n a rest ft' msgs' evs1 hresp hok htool
    rw [processQuery_result_eq c env q _ hresp,
      processContent_append_ok env bs1 (.toolUse n a :: rest) [⟨"user", q⟩] [] ft' msgs'
        evs1 hok]
    simp [processContent, htool, Except.map]
  · intro bs1 n a rest ft' msgs' evs1 res hresp hok htool hm
    rw [processQuery_result_eq c env q _ hresp,
      processContent_append_ok env bs1 (.toolUse n a :: rest) [⟨"user", q⟩] [] ft' msgs'
        evs1 hok]
    simp [processContent, htool, hm, Except.map]

def envW5 : Env :=
  { createMessage := fun _ tls =>
      match tls with
      | some _ => .ok ⟨[.text "hello", .toolUse "boom" .null]⟩
      | none => .ok ⟨[.text "unused"]⟩
    callTool := fun _ _ => .error .toolHostError }

/-- Witness for C5: the spec scenario — `callTool` raises, `processQuery`
rejects with that error, and the `Text` block `"hello"` already
accumulated is not returned. -/
theorem processQuery_error_propagation_witness :
    (processQuery {} envW5 "q").1 = .error .toolHostError :=
  (processQuery_error_propagation {} envW5 "q" .toolHostError).2.1
    [.text "hello"] "boom" .null [] ["hello"] [⟨"user", "q"⟩] [] rfl rfl rfl

/-- C9: if a successful tool call's follow-up model response has an empty
content sequence, `processQuery` throws (the source reads `.type` off
`response.content[0]`, which is `undefined`, raising a `TypeError`)
instead of appending the empty string and completing. -/
theorem processQuery_empty_follow_up_throws (c : MCPClient) (env : Env) (q : String)
    (bs1 : List ContentBlock) (n : String) (a : Json) (rest : List ContentBlock)
    (ft' : List String) (msgs' : List Message) (evs1 : List Event)
    (res : ToolResult) (fresp : ModelResponse)
    (hresp : env.createMessage [⟨"user", q⟩] (some c.tools) =
      .ok ⟨bs1 ++ .toolUse n a :: rest⟩)
    (hok : processContent env bs1 [⟨"user", q⟩] [] = (.ok (ft', msgs'), evs1))
    (htool : env.callTool n a = .ok res)
    (hfollow : env.createMessage (msgs' ++ [⟨"user", res.content⟩]) none = .ok fresp)
    (hcontent : fresp.content = []) :
    (processQuery c env q).1 = .error .typeError := by
  rw [processQuery_result_eq c env q _ hresp,
    processContent_append_ok env bs1 (.toolUse n a :: rest) [⟨"user", q⟩] [] ft' msgs'
      evs1 hok]
  simp [processContent, htool, hfollow, hcontent, Except.map]

def envW9 : Env :=
  { createMessage := fun _ tls =>
      match tls with
      | some _ => .ok ⟨[.toolUse "t" .null]⟩
      | none => .ok ⟨[]⟩
    callTool := fun _ _ => .ok ⟨"r"⟩ }

/-- Witness for C9: one successful tool call whose follow-up response has
empty content — `processQuery` rejects with the `TypeError`. -/
theorem processQuery_empty_follow_up_throws_witness :
    (processQuery {} envW9 "q").1 = .error .typeError :=
  processQuery_empty_follow_up_throws {} envW9 "q" [] "t" .null [] [] [⟨"user", "q"⟩] []
    ⟨"r"⟩ ⟨[]⟩ rfl rfl rfl rfl rfl

/-- C6: connecting with an entry-point path ending in neither `.js` nor
`.py` fails with the invalid-script-type error before anything happens:
the event list is empty (no transport is created, no `listTools` call is
made) and the client state is returned unchanged — in particular the
cached tool catalog stays as it was (empty on a fresh client). -/
theorem connectToServer_invalid_script_type (c : MCPClient) (env : ServerEnv)
    (path : String)
    (hjs : strEndsWith path ".js" = false) (hpy : strEndsWith path ".py" = false) :
    connectToServer c env path = (.error .invalidScriptType, [], c) := by
  simp [connectToServer, hjs, hpy]

/-- Witness for C6: connecting a fresh client with `"server.txt"` fails
with the invalid-script-type error, no events, client unchanged. -/
theorem connectToServer_invalid_script_type_witness :
    connectToServer {} ⟨.ok []⟩ "server.txt" = (.error .invalidScriptType, [], {}) :=
  connectToServer_invalid_script_type {} ⟨.ok []⟩ "server.txt" (by decide) (by decide)

/-- C8: `cleanup` is idempotent — if a first `cleanup` succeeded with
resulting state `c'`, a second `cleanup` does not raise and is a no-op:
it succeeds and returns `c'` unchanged (the channel stays closed). -/
theorem cleanup_idempotent (c c' : MCPClient) (h : cleanup c = .ok c') :
    cleanup c' = .ok c' := by
  have hc : c' = { c with closed := true } := by
    have h2 := h
    simp only [cleanup, channelClose, Except.ok.injEq] at h2
    exact h2.symm
  subst hc
  rfl

/-- Witness for C8: cleaning up a fresh client and then cleaning up the
resulting state again succeeds with the same state. -/
theorem cleanup_idempotent_witness :
    cleanup { tools := ([] : List Tool), transportConnected := false, closed := true } =
      .ok { tools := ([] : List Tool), transportConnected := false, closed := true } :=
  cleanup_idempotent {} _ rfl
